import Mathlib

/-!
# pysmbc `dir.c`: the `smbc.Dir` type

A shallow embedding of `src/dir.c` (`Dir_new`, `Dir_init`, `Dir_dealloc`,
`Dir_getdents`) and the properties of its error mapping, reference counting
and packed-record walk.

Conventions of the embedding

* Pointers into the Python heap are addresses (`Addr`); `NULL` is `none`.
* Native handles (`SMBCCTX *`, `SMBCFILE *`) are opaque numbers; `NULL` is `none`.
* The native library is a parameter: `smbc_opendir_fn` gives what the open
  primitive returns together with the value `errno` has after the call,
  `smbc_getdents_fn` gives the outcome of the i-th fill call on a cursor.
* Calls into the native library are recorded in `World.log`.
* C `int` values are `Int`; the one piece of `int` arithmetic in the file,
  `dirlen -= len`, wraps at 32 bits (`wrapInt`).
* A read through `dirp` outside `char dirbuf[1024]` is a fault.
* The loops of `Dir_getdents` take fuel, since nothing in the code bounds them.
* Python allocation (`PyList_New`, `PyString_FromString`, ...) is taken to succeed.
-/

namespace Pysmbc

/-! ## Data model -/

/-- Address of an object on the Python heap. -/
abbrev Addr := Nat

/-- A non-null `SMBCCTX *`. -/
abbrev SMBCCTX := Nat

/-- A non-null `SMBCFILE *`. -/
abbrev SMBCFILE := Nat

/-- The values of `<errno.h>` that `Dir_init` compares `errno` with (Linux numbering). -/
def EPERM : Int := 1

/-- No such file or directory. -/
def ENOENT : Int := 2

/-- Out of memory. -/
def ENOMEM : Int := 12

/-- Permission denied. -/
def EACCES : Int := 13

/-- The type code `SMBC_DIR` of `libsmbclient.h`. -/
def SMBC_DIR : Nat := 7

/-- The type code `SMBC_FILE` of `libsmbclient.h`. -/
def SMBC_FILE : Nat := 8

/-- The least value of a C `int` (32 bits). -/
def INT_MIN : Int := -2147483648

/-- The greatest value of a C `int` (32 bits). -/
def INT_MAX : Int := 2147483647

/-- A mathematical result brought back into the range of a 32-bit `int`:
two's complement wrap-around. -/
def wrapInt (x : Int) : Int := (x + 2147483648) % 4294967296 - 2147483648

/-- The value of `sizeof (dirbuf)` for `char dirbuf[1024]`. -/
def sizeof_dirbuf : Int := 1024

/-- The exception classes `dir.c` raises. -/
inductive ExcType where
  | TypeError
  | PermissionError
  | NoEntryError
  | MemoryError
  | RuntimeError
  deriving DecidableEq, Repr

/-- The pending Python exception: how it was set and with what. -/
inductive PyErr where
  | SetString (type : ExcType) (msg : String)
  | SetFromErrno (type : ExcType) (errno : Int)
  deriving DecidableEq, Repr

/-- The class of a pending exception. -/
def PyErr.type : PyErr → ExcType
  | .SetString t _ => t
  | .SetFromErrno t _ => t

/-- A Python object as `Dir_init` sees it: its reference count, whether
`PyObject_TypeCheck (obj, &smbc_ContextType)` holds, and, for a `Context`,
its native session `context`. -/
structure PyObject where
  ob_refcnt : Int
  isContext : Bool
  context : SMBCCTX
  deriving DecidableEq, Repr

/-- The `Dir` struct: `Context *context; SMBCFILE *dir;`. -/
structure Dir where
  context : Option Addr
  dir : Option SMBCFILE
  deriving DecidableEq, Repr

/-- A call into the native library. -/
inductive NativeCall where
  | opendir (ctx : SMBCCTX) (uri : String)
  | closedir (ctx : SMBCCTX) (dir : SMBCFILE)
  deriving DecidableEq, Repr

/-- The Python heap and the record of native calls made so far. -/
structure World where
  heap : Addr → PyObject
  log : List NativeCall

/-- `Py_INCREF` on the object at `a`. -/
def Py_INCREF (w : World) (a : Addr) : World :=
  { w with heap := fun x =>
      if x = a then { w.heap a with ob_refcnt := (w.heap a).ob_refcnt + 1 } else w.heap x }

/-- `Py_DECREF` on the object at `a` (the deallocation at zero is the
object's own business and is not followed). -/
def Py_DECREF (w : World) (a : Addr) : World :=
  { w with heap := fun x =>
      if x = a then { w.heap a with ob_refcnt := (w.heap a).ob_refcnt - 1 } else w.heap x }

/-- What the native open primitive gives back: the cursor (`none` for `NULL`)
and the value of `errno` after the call, `errno` having been 0 before it. -/
structure OpenResult where
  dir : Option SMBCFILE
  errno : Int
  deriving DecidableEq, Repr

/-- The function `smbc_getFunctionOpendir` returns. -/
abbrev smbc_opendir_fn := SMBCCTX → String → OpenResult

/-- Outcome of a run: it returned, it dereferenced a null pointer, or the
fuel ran out before it returned. -/
inductive Run (α : Type) where
  | done (a : α)
  | fault
  | timeout
  deriving DecidableEq, Repr

/-! ## `Dir_new`, `Dir_init`, `Dir_dealloc` -/

/-- `Dir_new`: `alloc` is what `type->tp_alloc (type, 0)` returned; a
non-null object gets `dir = NULL`, nothing else is written. -/
def Dir_new (alloc : Option Dir) : Option Dir :=
  match alloc with
  | some self => some { self with dir := none }
  | none => none

/-- What `Dir_init` leaves behind: its return value, the pending exception,
the handle and the world. -/
structure InitResult where
  ret : Int
  exc : Option PyErr
  self : Dir
  w : World

/-- `Dir_init`. `args` is the outcome of `PyArg_ParseTupleAndKeywords`
with format `"Os"`: the exception it set, or `ctxobj` and `uri`. -/
def Dir_init (opendir : smbc_opendir_fn) (self : Dir)
    (args : Except PyErr (Addr × String)) (w : World) : InitResult :=
  match args with
  | .error e => { ret := -1, exc := some e, self := self, w := w }
  | .ok (ctxobj, uri) =>
    if !(w.heap ctxobj).isContext then
      { ret := -1, exc := some (.SetString .TypeError "Expected smbc.Context"),
        self := self, w := w }
    else
      let w1 := Py_INCREF w ctxobj
      let self1 : Dir := { self with context := some ctxobj }
      let ctx := (w1.heap ctxobj).context
      let r := opendir ctx uri
      let w2 : World := { w1 with log := w1.log ++ [.opendir ctx uri] }
      match r.dir with
      | none =>
        let exc : PyErr :=
          if r.errno = EACCES then .SetString .PermissionError "Permission denied"
          else if r.errno = ENOENT then .SetString .NoEntryError "No such file or directory"
          else if r.errno = EPERM then .SetString .PermissionError "Operation not permitted"
          else if r.errno = ENOMEM then .SetFromErrno .MemoryError r.errno
          else .SetFromErrno .RuntimeError r.errno
        { ret := -1, exc := some exc, self := self1, w := w2 }
      | some dir =>
        { ret := 0, exc := none, self := { self1 with dir := some dir }, w := w2 }

/-- The first block of `Dir_dealloc`: `if (self->dir)` call the native close
on `ctx->context` and `self->dir`. `ctx` is `self->context`; it is
dereferenced only inside the `if`. No field of `self` is written. -/
def Dir_dealloc_closedir (self : Dir) (w : World) : Run World :=
  match self.dir with
  | some dir =>
    match self.context with
    | some ctx => .done { w with log := w.log ++ [.closedir (w.heap ctx).context dir] }
    | none => .fault
  | none => .done w

/-- The second block of `Dir_dealloc`: `if (self->context) Py_DECREF (self->context)`. -/
def Dir_dealloc_decref (self : Dir) (w : World) : World :=
  match self.context with
  | some ctx => Py_DECREF w ctx
  | none => w

/-- The teardown `Dir_dealloc` performs before it frees the object: both
blocks in order. The handle's fields are returned as they are left in
memory, which is unchanged. -/
def Dir_teardown (self : Dir) (w : World) : Run (Dir × World) :=
  match Dir_dealloc_closedir self w with
  | .done w1 => .done (self, Dir_dealloc_decref self w1)
  | .fault => .fault
  | .timeout => .timeout

/-- `Dir_dealloc`: the teardown, then `tp_free (self)`; the handle is gone
and only the world remains. -/
def Dir_dealloc (self : Dir) (w : World) : Run World :=
  match Dir_teardown self w with
  | .done (_, w1) => .done w1
  | .fault => .fault
  | .timeout => .timeout

/-! ## `Dir_getdents` -/

/-- What reading a `struct smbc_dirent` through a pointer gives: the type
code, the self-length as the `int len = dirp->dirlen` of the walk sees it,
and the two strings. -/
structure smbc_dirent where
  smbc_type : Nat
  dirlen : Int
  comment : String
  name : String
  deriving DecidableEq, Repr

/-- The `smbc.Dirent` object built from the keywords `name`, `comment` and
`smbc_type`. -/
structure Dirent where
  name : String
  comment : String
  smbc_type : Nat
  deriving DecidableEq, Repr

/-- The scratch buffer `char dirbuf[1024]` as the walk reads it: the record
seen through `(struct smbc_dirent *) (dirbuf + off)`, for each byte offset. -/
abbrev DirBuf := Int → smbc_dirent

/-- One call of the native fill primitive: its return value, the buffer as
it stands after the call, and the value of `errno` after the call. -/
structure Fill where
  ret : Int
  dirbuf : DirBuf
  errno : Int

/-- The function `smbc_getFunctionGetdents` returns: the outcome of the
call number `i` (from 0) made on a cursor of a session. -/
abbrev smbc_getdents_fn := SMBCCTX → Option SMBCFILE → Nat → Fill

/-- The body of the inner loop up to `PyList_Append`: the `Dirent` made from
the record under `dirp`. -/
def mkDirent (d : smbc_dirent) : Dirent :=
  { name := d.name, comment := d.comment, smbc_type := d.smbc_type }

/-- A record read by the inner loop: the offset of `dirp` in `dirbuf`, the
value of `dirlen` when it was read, and its self-length. -/
structure Probe where
  off : Int
  remaining : Int
  len : Int
  deriving DecidableEq, Repr

/-- The variables of the inner loop: `dirp` as an offset into `dirbuf`,
`dirlen`, `listobj`, and the records read so far (`decoded` is not in the
code, it records what the loop reads). -/
structure WalkState where
  dirp : Int
  dirlen : Int
  listobj : List Dirent
  decoded : List Probe
  deriving DecidableEq, Repr

/-- One pass through the body of `while (dirlen > 0)`. `dirlen` and `len`
are `int`, so `dirlen -= len` is a 32-bit subtraction. -/
def walkStep (dirbuf : DirBuf) (st : WalkState) : WalkState :=
  let len := (dirbuf st.dirp).dirlen
  { dirp := st.dirp + len
    dirlen := wrapInt (st.dirlen - len)
    listobj := st.listobj ++ [mkDirent (dirbuf st.dirp)]
    decoded := st.decoded ++ [{ off := st.dirp, remaining := st.dirlen, len := len }] }

/-- The inner loop `while (dirlen > 0) { ... }`, at most `fuel` passes. The
body reads through `dirp`; when `dirp` does not point into `dirbuf` that
read is a fault. -/
def walk (dirbuf : DirBuf) : Nat → WalkState → Run WalkState
  | 0, st =>
    if 0 < st.dirlen then
      if 0 ≤ st.dirp ∧ st.dirp < sizeof_dirbuf then .timeout else .fault
    else .done st
  | fuel + 1, st =>
    if 0 < st.dirlen then
      if 0 ≤ st.dirp ∧ st.dirp < sizeof_dirbuf then walk dirbuf fuel (walkStep dirbuf st)
      else .fault
    else .done st

/-- What `Dir_getdents` returns: the list, or `NULL` with the exception set;
and the number of fill calls made on the cursor so far. -/
structure GetdentsResult where
  result : Except PyErr (List Dirent)
  calls : Nat

/-- The outer loop of `Dir_getdents`: `fill i` is the outcome of fill call
number `i` on the cursor, `calls` the number of calls already made,
`listobj` the list so far. Each pass through the body takes one unit of
fuel, and the inner loop may make as many passes as there is fuel left. -/
def getdentsLoop (fill : Nat → Fill) : Nat → Nat → List Dirent → Run GetdentsResult
  | fuel, calls, listobj =>
    let f := fill calls
    if f.ret = 0 then
      .done { result := .ok listobj, calls := calls + 1 }
    else
      match fuel with
      | 0 => .timeout
      | fuel + 1 =>
        if f.ret < 0 then
          .done { result := .error (.SetFromErrno .RuntimeError f.errno), calls := calls + 1 }
        else
          match walk f.dirbuf fuel
              { dirp := 0, dirlen := f.ret, listobj := listobj, decoded := [] } with
          | .done st => getdentsLoop fill fuel (calls + 1) st.listobj
          | .fault => .fault
          | .timeout => .timeout

/-- `Dir_getdents`. `calls` is the number of fill calls the native cursor
has served before this call. `self->context` is dereferenced first. -/
def Dir_getdents (fn : smbc_getdents_fn) (fuel : Nat) (w : World) (self : Dir)
    (calls : Nat) : Run GetdentsResult :=
  match self.context with
  | none => .fault
  | some ctxobj =>
    let ctx := (w.heap ctxobj).context
    getdentsLoop (fn ctx self.dir) fuel calls []

/-! ## Packed records -/

/-- The records `recs` lie one after the other in `dirbuf` from offset `off`:
each starts where the self-length of the one before it ends. -/
def Layout (dirbuf : DirBuf) : Int → List smbc_dirent → Prop
  | _, [] => True
  | off, r :: rs => dirbuf off = r ∧ Layout dirbuf (off + r.dirlen) rs

/-- Whether `Layout` holds can be computed: it is a finite conjunction of
comparisons of records. -/
instance instDecidableLayout (dirbuf : DirBuf) :
    ∀ (off : Int) (recs : List smbc_dirent), Decidable (Layout dirbuf off recs)
  | _, [] => isTrue trivial
  | off, r :: rs =>
    have := instDecidableLayout dirbuf (off + r.dirlen) rs
    inferInstanceAs (Decidable (dirbuf off = r ∧ Layout dirbuf (off + r.dirlen) rs))

/-- Sum of the self-lengths of a list of records. -/
def totalLen (recs : List smbc_dirent) : Int :=
  (recs.map (fun r => r.dirlen)).sum

/-- The offset at which record number `i` of the sequence `recs` starts: the
sum of the self-lengths of the records before it. -/
def startOf (recs : Nat → smbc_dirent) : Nat → Int
  | 0 => 0
  | i + 1 => startOf recs i + (recs i).dirlen

/-- The records the walk reads along `recs` laid out from `off` with `rem`
bytes to go. -/
def probesOf : Int → Int → List smbc_dirent → List Probe
  | _, _, [] => []
  | off, rem, r :: rs =>
    { off := off, remaining := rem, len := r.dirlen } :: probesOf (off + r.dirlen) (rem - r.dirlen) rs

/-- The buffer `dirbuf`, filled with `f.ret` bytes, holds exactly the
records `recs`: the count is positive and no more than the buffer has room
for, the records are packed from offset 0, every self-length is positive and
they sum to the count. -/
def WellFormedFill (f : Fill) (recs : List smbc_dirent) : Prop :=
  (0 < f.ret ∧ f.ret ≤ sizeof_dirbuf) ∧ Layout f.dirbuf 0 recs ∧
    (∀ r ∈ recs, 0 < r.dirlen) ∧ totalLen recs = f.ret

/-- Whether a fill is well formed for `recs` can be computed. -/
instance instDecidableWellFormedFill (f : Fill) (recs : List smbc_dirent) :
    Decidable (WellFormedFill f recs) :=
  inferInstanceAs (Decidable ((0 < f.ret ∧ f.ret ≤ sizeof_dirbuf) ∧ Layout f.dirbuf 0 recs ∧
    (∀ r ∈ recs, 0 < r.dirlen) ∧ totalLen recs = f.ret))

/-- The inner loop comes to an end on the buffer of a fill: it returns,
without a fault. -/
def WalkHalts (f : Fill) : Prop :=
  ∃ m st, walk f.dirbuf m { dirp := 0, dirlen := f.ret, listobj := [], decoded := [] } = .done st

/-- The teardown of `Dir_dealloc` run a second time on the fields the first
run left. -/
def Dir_teardown_twice (self : Dir) (w : World) : Run (Dir × World) :=
  match Dir_teardown self w with
  | .done (self1, w1) => Dir_teardown self1 w1
  | .fault => .fault
  | .timeout => .timeout

/-! ## Sample inputs -/

/-- A heap with a `Context` at address 0 (one reference, native session 7)
and objects of other types elsewhere; no native call made yet. -/
def sampleWorld : World :=
  { heap := fun a => if a = 0 then { ob_refcnt := 1, isContext := true, context := 7 }
                     else { ob_refcnt := 1, isContext := false, context := 0 }
    log := [] }

/-- A handle as `Dir_new` leaves it on zeroed storage. -/
def freshDir : Dir := { context := none, dir := none }

/-- An open primitive that fails with `errno` set to `e`. -/
def opendirFails (e : Int) : smbc_opendir_fn := fun _ _ => { dir := none, errno := e }

/-- An open primitive that returns the cursor 5 and leaves `errno` at 0. -/
def opendirOk : smbc_opendir_fn := fun _ _ => { dir := some 5, errno := 0 }

/-- An open handle on the `Context` at address 0 with cursor 5. -/
def openDir : Dir := { context := some 0, dir := some 5 }

/-- The world after `openDir` was opened from `sampleWorld`. -/
def openWorld : World :=
  { heap := fun a => if a = 0 then { ob_refcnt := 2, isContext := true, context := 7 }
                     else { ob_refcnt := 1, isContext := false, context := 0 }
    log := [.opendir 7 "smb://host/share"] }

/-- The record `report.txt` of the scenario: a file, 40 bytes. -/
def recReport : smbc_dirent :=
  { smbc_type := SMBC_FILE, dirlen := 40, comment := "", name := "report.txt" }

/-- The record `archive` of the scenario: a directory, 36 bytes. -/
def recArchive : smbc_dirent :=
  { smbc_type := SMBC_DIR, dirlen := 36, comment := "old files", name := "archive" }

/-- A buffer with `recReport` at offset 0 and `recArchive` wherever else one looks. -/
def scenarioBuf : DirBuf := fun off => if off = 0 then recReport else recArchive

/-- The stream of the scenario: one fill of 76 bytes, then end of stream. -/
def scenarioFn : smbc_getdents_fn := fun _ _ i =>
  if i = 0 then { ret := 76, dirbuf := scenarioBuf, errno := 0 }
  else { ret := 0, dirbuf := scenarioBuf, errno := 0 }

/-- A stream whose first fill is that of the scenario and whose second fill
fails with `errno` 5. -/
def failingFn : smbc_getdents_fn := fun _ _ i =>
  if i = 0 then { ret := 76, dirbuf := scenarioBuf, errno := 0 }
  else { ret := -1, dirbuf := scenarioBuf, errno := 5 }

/-- A record of 30 bytes. -/
def recShort : smbc_dirent :=
  { smbc_type := SMBC_FILE, dirlen := 30, comment := "", name := "a" }

/-- A record that gives its own length as 2000 bytes. -/
def recHuge : smbc_dirent :=
  { smbc_type := SMBC_FILE, dirlen := 2000, comment := "", name := "b" }

/-- A buffer with `recShort` at offset 0 and `recHuge` behind it. -/
def overshootBuf : DirBuf := fun off => if off = 0 then recShort else recHuge

/-- A record that gives its own length as 0. -/
def recZero : smbc_dirent :=
  { smbc_type := SMBC_FILE, dirlen := 0, comment := "", name := "z" }

/-- A buffer that shows `recArchive` at every offset. -/
def uniformBuf : DirBuf := fun _ => recArchive

/-- A stream whose first fill is 8 bytes with a record of self-length 0 at
the front, and whose second fill fails with `errno` 5. -/
def hangFn : smbc_getdents_fn := fun _ _ i =>
  if i = 0 then { ret := 8, dirbuf := fun _ => recZero, errno := 0 }
  else { ret := -1, dirbuf := fun _ => recZero, errno := 5 }

/-- A record whose self-length reads as `INT_MIN`. -/
def recMin : smbc_dirent :=
  { smbc_type := SMBC_FILE, dirlen := -2147483648, comment := "", name := "m" }

/-- A buffer that shows `recMin` at every offset. -/
def wrapBuf : DirBuf := fun _ => recMin

/-! ## `Dir_init`: error mapping, type check, reference counting -/

theorem Py_INCREF_refcnt (w : World) (a : Addr) :
    ((Py_INCREF w a).heap a).ob_refcnt = (w.heap a).ob_refcnt + 1 := by
  simp [Py_INCREF]

theorem Py_DECREF_refcnt (w : World) (a : Addr) :
    ((Py_DECREF w a).heap a).ob_refcnt = (w.heap a).ob_refcnt - 1 := by
  simp [Py_DECREF]

/-- C1: once the arguments are parsed and `ctxobj` is a `Context`, a null
cursor from the open primitive makes `Dir_init` return -1 with the exception
class fixed by `errno`: `NoEntryError` for `ENOENT`, `PermissionError` for
`EACCES` and `EPERM`, `MemoryError` for `ENOMEM`, `RuntimeError` from `errno`
for every other value; a non-null cursor makes it return 0 with no exception,
whatever `errno` is. -/
theorem Dir_init_errno_mapping (opendir : smbc_opendir_fn) (self : Dir) (w : World)
    (ctxobj : Addr) (uri : String) (hty : (w.heap ctxobj).isContext = true) :
    (∀ e : Int, opendir (w.heap ctxobj).context uri = { dir := none, errno := e } →
      (Dir_init opendir self (.ok (ctxobj, uri)) w).ret = -1 ∧
      (∃ x, (Dir_init opendir self (.ok (ctxobj, uri)) w).exc = some x) ∧
      (e = ENOENT →
        ((Dir_init opendir self (.ok (ctxobj, uri)) w).exc.map PyErr.type
          = some ExcType.NoEntryError)) ∧
      (e = EACCES ∨ e = EPERM →
        ((Dir_init opendir self (.ok (ctxobj, uri)) w).exc.map PyErr.type
          = some ExcType.PermissionError)) ∧
      (e = ENOMEM →
        ((Dir_init opendir self (.ok (ctxobj, uri)) w).exc
          = some (PyErr.SetFromErrno ExcType.MemoryError e))) ∧
      (e ≠ ENOENT → e ≠ EACCES → e ≠ EPERM → e ≠ ENOMEM →
        ((Dir_init opendir self (.ok (ctxobj, uri)) w).exc
          = some (PyErr.SetFromErrno ExcType.RuntimeError e)))) ∧
    (∀ (d : SMBCFILE) (e : Int),
      opendir (w.heap ctxobj).context uri = { dir := some d, errno := e } →
      (Dir_init opendir self (.ok (ctxobj, uri)) w).ret = 0 ∧
      (Dir_init opendir self (.ok (ctxobj, uri)) w).exc = none) := by
  have hctx : ((Py_INCREF w ctxobj).heap ctxobj).context = (w.heap ctxobj).context := by
    simp [Py_INCREF]
  refine ⟨?_, ?_⟩
  · intro e he
    simp only [Dir_init, hty, hctx, he]
    refine ⟨by simp, by simp, ?_, ?_, ?_, ?_⟩
    · intro h; subst h; simp [ENOENT, EACCES, PyErr.type]
    · rintro (h | h) <;> subst h <;> simp [ENOENT, EACCES, EPERM, PyErr.type]
    · intro h; subst h; simp [ENOENT, EACCES, EPERM, ENOMEM]
    · intro h1 h2 h3 h4; simp [h1, h2, h3, h4]
  · intro d e he
    simp [Dir_init, hty, hctx, he]

theorem Dir_init_errno_mapping_witness :
    (sampleWorld.heap 0).isContext = true ∧
    (Dir_init (opendirFails ENOENT) freshDir (.ok (0, "smb://host/none")) sampleWorld).exc.map
      PyErr.type = some ExcType.NoEntryError :=
  ⟨rfl, ((Dir_init_errno_mapping (opendirFails ENOENT) freshDir sampleWorld 0
    "smb://host/none" rfl).1 ENOENT rfl).2.2.1 rfl⟩

/-- C10: when `ctxobj` is not a `Context`, `Dir_init` returns -1 with
`TypeError` set and nothing else has happened: no native call is recorded,
the heap (so every reference count) is as before, and the handle is
untouched, so a handle from `Dir_new` still has a null cursor. The same
holds, with the exception of the argument parser, when the arguments do not
parse. -/
theorem Dir_init_type_error (opendir : smbc_opendir_fn) (alloc : Option Dir) (self : Dir)
    (w : World) (ctxobj : Addr) (uri : String)
    (hnew : Dir_new alloc = some self) (hty : (w.heap ctxobj).isContext = false) :
    (Dir_init opendir self (.ok (ctxobj, uri)) w).ret = -1 ∧
    (Dir_init opendir self (.ok (ctxobj, uri)) w).exc
      = some (PyErr.SetString ExcType.TypeError "Expected smbc.Context") ∧
    (Dir_init opendir self (.ok (ctxobj, uri)) w).w.log = w.log ∧
    (Dir_init opendir self (.ok (ctxobj, uri)) w).w.heap = w.heap ∧
    ((Dir_init opendir self (.ok (ctxobj, uri)) w).w.heap ctxobj).ob_refcnt
      = (w.heap ctxobj).ob_refcnt ∧
    (Dir_init opendir self (.ok (ctxobj, uri)) w).self = self ∧
    (Dir_init opendir self (.ok (ctxobj, uri)) w).self.dir = none ∧
    (∀ e : PyErr,
      (Dir_init opendir self (.error e) w).ret = -1 ∧
      (Dir_init opendir self (.error e) w).exc = some e ∧
      (Dir_init opendir self (.error e) w).w.log = w.log ∧
      (Dir_init opendir self (.error e) w).w.heap = w.heap ∧
      (Dir_init opendir self (.error e) w).self = self) := by
  have hdir : self.dir = none := by
    cases alloc with
    | none => simp [Dir_new] at hnew
    | some s => simp [Dir_new] at hnew; rw [← hnew]
  simp [Dir_init, hty, hdir]

theorem Dir_init_type_error_witness :
    (Dir_new (some freshDir) = some freshDir ∧ (sampleWorld.heap 3).isContext = false) ∧
    (Dir_init opendirOk freshDir (.ok (3, "smb://host/share")) sampleWorld).w.log
      = sampleWorld.log :=
  ⟨⟨rfl, rfl⟩, (Dir_init_type_error opendirOk (some freshDir) freshDir sampleWorld 3
    "smb://host/share" rfl rfl).2.2.1⟩

/-- C4, as the claim states it, fails: after an open that returned a null
cursor the `Context` at address 0 has one reference more than before the
call and the handle points to it. -/
theorem Dir_init_failed_open_keeps_reference :
    (opendirFails ENOENT (sampleWorld.heap 0).context "smb://host/none").dir = none ∧
    (Dir_init (opendirFails ENOENT) freshDir (.ok (0, "smb://host/none")) sampleWorld).ret = -1 ∧
    ¬ (((Dir_init (opendirFails ENOENT) freshDir (.ok (0, "smb://host/none"))
          sampleWorld).w.heap 0).ob_refcnt = (sampleWorld.heap 0).ob_refcnt) ∧
    ¬ ((Dir_init (opendirFails ENOENT) freshDir (.ok (0, "smb://host/none"))
          sampleWorld).self.context = none) := by
  simp [Dir_init, opendirFails, sampleWorld, freshDir, Py_INCREF]

/-- C4, amended: when the open primitive returns a null cursor, `Dir_init`
returns -1 and leaves the cursor of a handle from `Dir_new` null, but it has
already taken its reference: the count of the `Context` is one more than
before the call and the handle points to the `Context`. `Dir_dealloc` on that
handle makes no native call and brings the count back to its value before
`Dir_init`. -/
theorem Dir_init_failed_open (opendir : smbc_opendir_fn) (alloc : Option Dir) (self : Dir)
    (w : World) (ctxobj : Addr) (uri : String) (e : Int)
    (hnew : Dir_new alloc = some self) (hty : (w.heap ctxobj).isContext = true)
    (hopen : opendir (w.heap ctxobj).context uri = { dir := none, errno := e }) :
    (Dir_init opendir self (.ok (ctxobj, uri)) w).ret = -1 ∧
    (Dir_init opendir self (.ok (ctxobj, uri)) w).self.dir = none ∧
    (Dir_init opendir self (.ok (ctxobj, uri)) w).self.context = some ctxobj ∧
    ((Dir_init opendir self (.ok (ctxobj, uri)) w).w.heap ctxobj).ob_refcnt
      = (w.heap ctxobj).ob_refcnt + 1 ∧
    ∃ w1, Dir_dealloc (Dir_init opendir self (.ok (ctxobj, uri)) w).self
        (Dir_init opendir self (.ok (ctxobj, uri)) w).w = .done w1 ∧
      w1.log = (Dir_init opendir self (.ok (ctxobj, uri)) w).w.log ∧
      (w1.heap ctxobj).ob_refcnt = (w.heap ctxobj).ob_refcnt := by
  have hdir : self.dir = none := by
    cases alloc with
    | none => simp [Dir_new] at hnew
    | some s => simp [Dir_new] at hnew; rw [← hnew]
  have hctx : ((Py_INCREF w ctxobj).heap ctxobj).context = (w.heap ctxobj).context := by
    simp [Py_INCREF]
  simp [Dir_init, hty, hctx, hopen, hdir, Dir_dealloc, Dir_teardown, Dir_dealloc_closedir,
    Dir_dealloc_decref, Py_INCREF, Py_DECREF]

theorem Dir_init_failed_open_witness :
    (Dir_new (some freshDir) = some freshDir ∧ (sampleWorld.heap 0).isContext = true ∧
      opendirFails EACCES (sampleWorld.heap 0).context "smb://host/secret"
        = { dir := none, errno := EACCES }) ∧
    ((Dir_init (opendirFails EACCES) freshDir (.ok (0, "smb://host/secret"))
        sampleWorld).w.heap 0).ob_refcnt = (sampleWorld.heap 0).ob_refcnt + 1 :=
  ⟨⟨rfl, rfl, rfl⟩, (Dir_init_failed_open (opendirFails EACCES) (some freshDir) freshDir
    sampleWorld 0 "smb://host/secret" EACCES rfl rfl rfl).2.2.2.1⟩

/-- C5: when the open primitive returns a cursor `d`, `Dir_init` returns 0,
raises the count of the `Context` by one and stores `d` and the `Context` in
the handle. `Dir_dealloc` then first calls the native close once, on the
session of that `Context` and on `d`, the count still being one above its
value before `Dir_init`, and then lowers the count by one, back to that
value; it makes no other native call. -/
theorem Dir_init_dealloc_refcount (opendir : smbc_opendir_fn) (self : Dir) (w : World)
    (ctxobj : Addr) (uri : String) (d : SMBCFILE) (e : Int)
    (hty : (w.heap ctxobj).isContext = true)
    (hopen : opendir (w.heap ctxobj).context uri = { dir := some d, errno := e }) :
    (Dir_init opendir self (.ok (ctxobj, uri)) w).ret = 0 ∧
    (Dir_init opendir self (.ok (ctxobj, uri)) w).self = { context := some ctxobj, dir := some d } ∧
    ((Dir_init opendir self (.ok (ctxobj, uri)) w).w.heap ctxobj).ob_refcnt
      = (w.heap ctxobj).ob_refcnt + 1 ∧
    (w.heap ctxobj).ob_refcnt
      < ((Dir_init opendir self (.ok (ctxobj, uri)) w).w.heap ctxobj).ob_refcnt ∧
    ∃ w1 w2,
      Dir_dealloc_closedir (Dir_init opendir self (.ok (ctxobj, uri)) w).self
        (Dir_init opendir self (.ok (ctxobj, uri)) w).w = .done w1 ∧
      w1.log = (Dir_init opendir self (.ok (ctxobj, uri)) w).w.log
        ++ [NativeCall.closedir (w.heap ctxobj).context d] ∧
      (w.heap ctxobj).ob_refcnt < (w1.heap ctxobj).ob_refcnt ∧
      Dir_dealloc (Dir_init opendir self (.ok (ctxobj, uri)) w).self
        (Dir_init opendir self (.ok (ctxobj, uri)) w).w = .done w2 ∧
      w2 = Dir_dealloc_decref (Dir_init opendir self (.ok (ctxobj, uri)) w).self w1 ∧
      w2.log = w1.log ∧
      (w2.heap ctxobj).ob_refcnt = (w1.heap ctxobj).ob_refcnt - 1 ∧
      (w2.heap ctxobj).ob_refcnt = (w.heap ctxobj).ob_refcnt := by
  have hctx : ((Py_INCREF w ctxobj).heap ctxobj).context = (w.heap ctxobj).context := by
    simp [Py_INCREF]
  simp [Dir_init, hty, hctx, hopen, Dir_dealloc, Dir_teardown, Dir_dealloc_closedir,
    Dir_dealloc_decref, Py_INCREF, Py_DECREF]

theorem Dir_init_dealloc_refcount_witness :
    ((sampleWorld.heap 0).isContext = true ∧
      opendirOk (sampleWorld.heap 0).context "smb://host/share" = { dir := some 5, errno := 0 }) ∧
    (Dir_init opendirOk freshDir (.ok (0, "smb://host/share")) sampleWorld).self
      = { context := some 0, dir := some 5 } :=
  ⟨⟨rfl, rfl⟩, (Dir_init_dealloc_refcount opendirOk freshDir sampleWorld 0 "smb://host/share"
    5 0 rfl rfl).2.1⟩

/-! ## `Dir_dealloc`: the teardown -/

/-- C6, as the claim states it, fails: the teardown run twice on the open
handle `openDir` leaves the cursor in the handle, closes it twice and
releases the `Context` twice (its count goes from 2 to 0). -/
theorem Dir_teardown_twice_not_noop :
    Dir_teardown openDir openWorld ≠ Dir_teardown_twice openDir openWorld ∧
    (∃ w1 w2, Dir_teardown openDir openWorld = .done (openDir, w1) ∧
      Dir_teardown_twice openDir openWorld = .done (openDir, w2) ∧
      w1.log = openWorld.log ++ [NativeCall.closedir 7 5] ∧
      w2.log = openWorld.log ++ [NativeCall.closedir 7 5, NativeCall.closedir 7 5] ∧
      (w1.heap 0).ob_refcnt = 1 ∧ (w2.heap 0).ob_refcnt = 0) := by
  refine ⟨?_, ?_⟩
  · intro h
    have h2 := congrArg (fun r => match r with
      | Run.done p => p.2.log.length
      | _ => 0) h
    simp [Dir_teardown, Dir_teardown_twice, Dir_dealloc_closedir, Dir_dealloc_decref,
      Py_DECREF, openDir, openWorld] at h2
  · simp [Dir_teardown, Dir_teardown_twice, Dir_dealloc_closedir, Dir_dealloc_decref,
      Py_DECREF, openDir, openWorld]

/-- C6, amended: on a handle whose cursor is null the teardown of
`Dir_dealloc` makes no native call and does not fail. On a handle with a
cursor and a `Context`, every run of the teardown calls the native close
once on that cursor and lowers the count of the `Context` by one, and it
leaves both fields of the handle as they were; `Dir_dealloc` runs it once. -/
theorem Dir_teardown_effect (self : Dir) (w : World) :
    (self.dir = none →
      ∃ w1, Dir_teardown self w = .done (self, w1) ∧ w1.log = w.log) ∧
    (∀ (d : SMBCFILE) (ctxobj : Addr), self.dir = some d → self.context = some ctxobj →
      ∃ w1, Dir_teardown self w = .done (self, w1) ∧ Dir_dealloc self w = .done w1 ∧
        w1.log = w.log ++ [NativeCall.closedir (w.heap ctxobj).context d] ∧
        (w1.heap ctxobj).ob_refcnt = (w.heap ctxobj).ob_refcnt - 1) := by
  refine ⟨?_, ?_⟩
  · intro h
    cases hc : self.context <;>
      simp [Dir_teardown, Dir_dealloc_closedir, Dir_dealloc_decref, Py_DECREF, h, hc]
  · intro d ctxobj hd hc
    simp [Dir_teardown, Dir_dealloc, Dir_dealloc_closedir, Dir_dealloc_decref, Py_DECREF, hd, hc]

/-! ## `Dir_getdents`: end of stream at once -/

/-- C7: on an open handle whose stream answers the next fill call with 0,
`Dir_getdents` returns the empty list, with no exception, after that one
fill call, whatever the fuel. -/
theorem Dir_getdents_empty (fn : smbc_getdents_fn) (fuel : Nat) (w : World) (self : Dir)
    (ctxobj : Addr) (d : SMBCFILE) (calls : Nat)
    (hctx : self.context = some ctxobj) (hdir : self.dir = some d)
    (hzero : (fn (w.heap ctxobj).context (some d) calls).ret = 0) :
    Dir_getdents fn fuel w self calls = .done { result := .ok [], calls := calls + 1 } := by
  cases fuel <;> simp [Dir_getdents, hctx, hdir, getdentsLoop, hzero]

theorem Dir_getdents_empty_witness :
    (openDir.context = some 0 ∧ openDir.dir = some 5 ∧
      (scenarioFn (openWorld.heap 0).context (some 5) 2).ret = 0) ∧
    Dir_getdents scenarioFn 0 openWorld openDir 2 = .done { result := .ok [], calls := 3 } :=
  ⟨⟨rfl, rfl, rfl⟩, Dir_getdents_empty scenarioFn 0 openWorld openDir 0 5 2 rfl rfl rfl⟩

/-! ## The inner loop -/

theorem wrapInt_of_range (x : Int) (h1 : INT_MIN ≤ x) (h2 : x ≤ INT_MAX) : wrapInt x = x := by
  unfold INT_MIN at h1
  unfold INT_MAX at h2
  unfold wrapInt
  omega

theorem wrapInt_of_overflow (x : Int) (h1 : INT_MAX < x) (h2 : x ≤ INT_MAX - INT_MIN) :
    wrapInt x = x - 4294967296 := by
  unfold INT_MAX at h1 h2
  unfold INT_MIN at h2
  unfold wrapInt
  omega

theorem walk_zero (dirbuf : DirBuf) (st : WalkState) (h : st.dirlen ≤ 0) (fuel : Nat) :
    walk dirbuf fuel st = .done st := by
  cases fuel <;> simp [walk, not_lt.mpr h]

theorem walk_succ (dirbuf : DirBuf) (st : WalkState) (h : 0 < st.dirlen)
    (hb : 0 ≤ st.dirp ∧ st.dirp < sizeof_dirbuf) (fuel : Nat) :
    walk dirbuf (fuel + 1) st = walk dirbuf fuel (walkStep dirbuf st) := by
  simp [walk, h, hb]

theorem walk_fault (dirbuf : DirBuf) (st : WalkState) (h : 0 < st.dirlen)
    (hb : ¬ (0 ≤ st.dirp ∧ st.dirp < sizeof_dirbuf)) (fuel : Nat) :
    walk dirbuf fuel st = .fault := by
  cases fuel <;> simp only [walk, h, hb, if_true, if_false]

/-- More fuel does not change the outcome of a walk that came to an end. -/
theorem walk_mono (dirbuf : DirBuf) :
    ∀ (m : Nat) (st r : WalkState), walk dirbuf m st = .done r →
      ∀ m2, m ≤ m2 → walk dirbuf m2 st = .done r := by
  intro m
  induction m with
  | zero =>
    intro st r h m2 _
    by_cases hp : 0 < st.dirlen
    · by_cases hb : 0 ≤ st.dirp ∧ st.dirp < sizeof_dirbuf
      · simp [walk, hp, hb] at h
      · rw [walk_fault dirbuf st hp hb] at h
        cases h
    · rw [walk_zero dirbuf st (not_lt.mp hp)] at h
      rw [walk_zero dirbuf st (not_lt.mp hp)]
      exact h
  | succ m ih =>
    intro st r h m2 hm
    by_cases hp : 0 < st.dirlen
    · by_cases hb : 0 ≤ st.dirp ∧ st.dirp < sizeof_dirbuf
      · obtain ⟨k, rfl⟩ : ∃ k, m2 = k + 1 := ⟨m2 - 1, by omega⟩
        rw [walk_succ dirbuf st hp hb] at h
        rw [walk_succ dirbuf st hp hb]
        exact ih _ _ h k (by omega)
      · rw [walk_fault dirbuf st hp hb] at h
        cases h
    · rw [walk_zero dirbuf st (not_lt.mp hp)] at h
      rw [walk_zero dirbuf st (not_lt.mp hp)]
      exact h

/-- Whether a walk comes to an end depends on `dirp` and `dirlen` only. -/
theorem walk_halts_any_list (dirbuf : DirBuf) :
    ∀ (m : Nat) (p n : Int) (l l2 : List Dirent) (t t2 : List Probe) (r : WalkState),
      walk dirbuf m { dirp := p, dirlen := n, listobj := l, decoded := t } = .done r →
      ∃ r2, walk dirbuf m { dirp := p, dirlen := n, listobj := l2, decoded := t2 } = .done r2 := by
  intro m
  induction m with
  | zero =>
    intro p n l l2 t t2 r h
    by_cases hp : 0 < n
    · by_cases hb : 0 ≤ p ∧ p < sizeof_dirbuf
      · simp [walk, hp, hb] at h
      · rw [walk_fault dirbuf _ hp hb] at h
        cases h
    · exact ⟨_, walk_zero dirbuf _ (not_lt.mp hp) 0⟩
  | succ m ih =>
    intro p n l l2 t t2 r h
    by_cases hp : 0 < n
    · by_cases hb : 0 ≤ p ∧ p < sizeof_dirbuf
      · rw [walk_succ dirbuf _ hp hb] at h
        rw [walk_succ dirbuf _ hp hb]
        exact ih _ _ _ _ _ _ _ h
      · rw [walk_fault dirbuf _ hp hb] at h
        cases h
    · exact ⟨_, walk_zero dirbuf _ (not_lt.mp hp) _⟩

/-- A walk whose counter is positive and whose `dirp` is inside the buffer
for `k` passes, and whose counter is not positive after them, ends in the
state after `k` passes, given fuel for them. -/
theorem walk_iterate (dirbuf : DirBuf) :
    ∀ (k : Nat) (st : WalkState),
      (∀ j, j < k → 0 < ((walkStep dirbuf)^[j] st).dirlen ∧
        (0 ≤ ((walkStep dirbuf)^[j] st).dirp ∧ ((walkStep dirbuf)^[j] st).dirp < sizeof_dirbuf)) →
      ((walkStep dirbuf)^[k] st).dirlen ≤ 0 →
      ∀ fuel, k ≤ fuel → walk dirbuf fuel st = .done ((walkStep dirbuf)^[k] st) := by
  intro k
  induction k with
  | zero =>
    intro st _ hk fuel _
    exact walk_zero dirbuf st hk fuel
  | succ k ih =>
    intro st hlt hk fuel hf
    obtain ⟨f, rfl⟩ : ∃ f, fuel = f + 1 := ⟨fuel - 1, by omega⟩
    have h0 := hlt 0 (by omega)
    rw [walk_succ dirbuf st h0.1 h0.2]
    apply ih
    · intro j hj
      have := hlt (j + 1) (by omega)
      rwa [Function.iterate_succ_apply] at this
    · rwa [Function.iterate_succ_apply] at hk
    · omega

/-- A record of self-length 0 under `dirp`, inside the buffer, with bytes to
go: no amount of fuel brings the walk to an end. -/
theorem walk_zero_length_never_ends (dirbuf : DirBuf) (fuel : Nat) :
    ∀ (st : WalkState), 0 < st.dirlen → st.dirlen ≤ INT_MAX →
      (0 ≤ st.dirp ∧ st.dirp < sizeof_dirbuf) → (dirbuf st.dirp).dirlen = 0 →
      walk dirbuf fuel st = .timeout := by
  induction fuel with
  | zero => intro st h _ hb _; simp [walk, h, hb]
  | succ f ih =>
    intro st h hmax hb hz
    have hw : wrapInt (st.dirlen - 0) = st.dirlen := by
      rw [sub_zero]
      exact wrapInt_of_range _ (by unfold INT_MIN; omega) hmax
    rw [walk_succ dirbuf st h hb]
    apply ih
    · simp only [walkStep, hz, hw]; exact h
    · simp only [walkStep, hz, hw]; exact hmax
    · simpa only [walkStep, hz, add_zero] using hb
    · simp [walkStep, hz]

theorem startOf_ge (recs : Nat → smbc_dirent) (hpos : ∀ i, 0 < (recs i).dirlen) :
    ∀ i : Nat, (i : Int) ≤ startOf recs i := by
  intro i
  induction i with
  | zero => simp [startOf]
  | succ i ih =>
    have := hpos i
    simp only [startOf]
    push_cast
    omega

/-- The state after `j` passes along a packed sequence of records with
positive self-lengths, as long as the records before the last pass start
below the count `n`. -/
theorem iterate_walkStep_packed (dirbuf : DirBuf) (recs : Nat → smbc_dirent) (n : Int)
    (acc : List Dirent) (tr : List Probe) (hcap : n ≤ INT_MAX)
    (hpacked : ∀ i, dirbuf (startOf recs i) = recs i)
    (hpos : ∀ i, 0 < (recs i).dirlen) (hint : ∀ i, (recs i).dirlen ≤ INT_MAX) :
    ∀ j, (∀ i, i < j → startOf recs i < n) →
      (walkStep dirbuf)^[j] { dirp := 0, dirlen := n, listobj := acc, decoded := tr }
      = { dirp := startOf recs j
          dirlen := n - startOf recs j
          listobj := acc ++ (List.range j).map (fun i => mkDirent (recs i))
          decoded := tr ++ (List.range j).map (fun i =>
            { off := startOf recs i, remaining := n - startOf recs i, len := (recs i).dirlen }) } := by
  intro j
  induction j with
  | zero => intro _; simp [startOf]
  | succ j ih =>
    intro hlt
    rw [Function.iterate_succ_apply', ih (fun i hi => hlt i (by omega))]
    have h1 := hlt j (by omega)
    have h2 := startOf_ge recs hpos j
    have h3 := hpos j
    have h4 := hint j
    have hw : wrapInt (n - startOf recs j - (recs j).dirlen)
        = n - startOf recs j - (recs j).dirlen := by
      apply wrapInt_of_range
      · unfold INT_MIN; unfold INT_MAX at h4; omega
      · unfold INT_MAX at hcap ⊢; omega
    simp only [walkStep, hpacked, hw, startOf, List.range_succ, List.map_append, List.map_cons,
      List.map_nil, List.append_assoc]
    congr 1
    omega

/-- C9, as the claim states it, fails: with one byte to go and a record
under `dirp` whose self-length is `INT_MIN` (so not positive), the 32-bit
`dirlen -= len` wraps to -2147483647: the counter goes down at that pass,
and the walk ends after it. -/
theorem walkStep_wraps_on_int_min :
    (wrapBuf 0).dirlen ≤ 0 ∧
    (walkStep wrapBuf { dirp := 0, dirlen := 1, listobj := [], decoded := [] }).dirlen
      = -2147483647 ∧
    ¬ ((1 : Int) ≤
      (walkStep wrapBuf { dirp := 0, dirlen := 1, listobj := [], decoded := [] }).dirlen) ∧
    walk wrapBuf 1 { dirp := 0, dirlen := 1, listobj := [], decoded := [] }
      = .done { dirp := -2147483648
                dirlen := -2147483647
                listobj := [mkDirent recMin]
                decoded := [{ off := 0, remaining := 1, len := -2147483648 }] } := by
  decide

/-- C9, amended: along a packed sequence of records whose self-lengths are
positive `int` values and with `n > 0` bytes filled (no more than `dirbuf`
holds), the inner loop comes to an end, given fuel for `k` passes, having
read exactly the records `0 .. k-1`, where `k` is the least number of records
whose self-lengths sum to `n` or more (so the last of them may reach beyond
`n`); `dirlen` is smaller after each of these passes than before it. On any
buffer, a pass over a record whose self-length is not positive does not lower
`dirlen` as long as `dirlen - len` is at most `INT_MAX`; when `dirlen - len`
is above `INT_MAX` the subtraction wraps and leaves `dirlen` negative. -/
theorem walk_decodes_first_k (dirbuf : DirBuf) (recs : Nat → smbc_dirent) (n : Int)
    (acc : List Dirent) (tr : List Probe) (hn : 0 < n) (hcap : n ≤ sizeof_dirbuf)
    (hpacked : ∀ i, dirbuf (startOf recs i) = recs i)
    (hpos : ∀ i, 0 < (recs i).dirlen) (hint : ∀ i, (recs i).dirlen ≤ INT_MAX) :
    ∃ k : Nat, 0 < k ∧ n ≤ startOf recs k ∧ (∀ j, j < k → startOf recs j < n) ∧
      (∀ fuel, k ≤ fuel →
        walk dirbuf fuel { dirp := 0, dirlen := n, listobj := acc, decoded := tr }
          = .done { dirp := startOf recs k
                    dirlen := n - startOf recs k
                    listobj := acc ++ (List.range k).map (fun i => mkDirent (recs i))
                    decoded := tr ++ (List.range k).map (fun i =>
                      { off := startOf recs i, remaining := n - startOf recs i,
                        len := (recs i).dirlen }) }) ∧
      (∀ j, j < k →
        ((walkStep dirbuf)^[j + 1]
            { dirp := 0, dirlen := n, listobj := acc, decoded := tr }).dirlen
          < ((walkStep dirbuf)^[j]
            { dirp := 0, dirlen := n, listobj := acc, decoded := tr }).dirlen) ∧
      (∀ (b : DirBuf) (st : WalkState), (b st.dirp).dirlen ≤ 0 → INT_MIN ≤ st.dirlen →
        st.dirlen - (b st.dirp).dirlen ≤ INT_MAX → st.dirlen ≤ (walkStep b st).dirlen) ∧
      (∀ (b : DirBuf) (st : WalkState), 0 < st.dirlen → st.dirlen ≤ INT_MAX →
        INT_MIN ≤ (b st.dirp).dirlen → INT_MAX < st.dirlen - (b st.dirp).dirlen →
        (walkStep b st).dirlen < 0) := by
  have hex : ∃ k : Nat, n ≤ startOf recs k :=
    ⟨n.toNat, le_trans (Int.self_le_toNat n) (startOf_ge recs hpos n.toNat)⟩
  have hcap2 : n ≤ INT_MAX := by unfold sizeof_dirbuf at hcap; unfold INT_MAX; omega
  have hiter := iterate_walkStep_packed dirbuf recs n acc tr hcap2 hpacked hpos hint
  have hbelow : ∀ j, j < Nat.find hex → startOf recs j < n :=
    fun j hj => not_le.mp (Nat.find_min hex hj)
  have hiterk : ∀ j, j ≤ Nat.find hex →
      (walkStep dirbuf)^[j] { dirp := 0, dirlen := n, listobj := acc, decoded := tr }
      = { dirp := startOf recs j
          dirlen := n - startOf recs j
          listobj := acc ++ (List.range j).map (fun i => mkDirent (recs i))
          decoded := tr ++ (List.range j).map (fun i =>
            { off := startOf recs i, remaining := n - startOf recs i,
              len := (recs i).dirlen }) } :=
    fun j hj => hiter j (fun i hi => hbelow i (by omega))
  refine ⟨Nat.find hex, ?_, Nat.find_spec hex, hbelow, ?_, ?_, ?_, ?_⟩
  · rcases Nat.eq_zero_or_pos (Nat.find hex) with h0 | h0
    · have := Nat.find_spec hex
      rw [h0] at this
      simp only [startOf] at this
      omega
    · exact h0
  · intro fuel hf
    rw [← hiterk (Nat.find hex) (le_refl _)]
    apply walk_iterate dirbuf (Nat.find hex) _ _ _ fuel hf
    · intro j hj
      rw [hiterk j (by omega)]
      have h1 := hbelow j hj
      have h2 := startOf_ge recs hpos j
      simp only
      unfold sizeof_dirbuf at hcap ⊢
      omega
    · rw [hiterk (Nat.find hex) (le_refl _)]
      have := Nat.find_spec hex
      simp only
      omega
  · intro j hj
    rw [hiterk (j + 1) (by omega), hiterk j (by omega)]
    have := hpos j
    simp only [startOf]
    omega
  · intro b st h hmin hmax
    have hw := wrapInt_of_range (st.dirlen - (b st.dirp).dirlen) (by omega) hmax
    simp only [walkStep, hw]
    omega
  · intro b st h hmax hmin hover
    have hw := wrapInt_of_overflow (st.dirlen - (b st.dirp).dirlen) hover (by omega)
    simp only [walkStep, hw]
    unfold INT_MAX at hmax
    unfold INT_MIN at hmin
    omega

theorem walk_decodes_first_k_witness :
    ((0 : Int) < 100 ∧ (100 : Int) ≤ sizeof_dirbuf ∧
      (∀ i, uniformBuf (startOf (fun _ => recArchive) i) = recArchive) ∧
      (∀ _i : Nat, 0 < recArchive.dirlen) ∧ (∀ _i : Nat, recArchive.dirlen ≤ INT_MAX)) ∧
    ∃ k : Nat, 0 < k ∧ (100 : Int) ≤ startOf (fun _ => recArchive) k ∧
      (∀ j, j < k → startOf (fun _ => recArchive) j < 100) ∧
      ∀ fuel, k ≤ fuel →
        walk uniformBuf fuel { dirp := 0, dirlen := 100, listobj := [], decoded := [] }
          = .done { dirp := startOf (fun _ => recArchive) k
                    dirlen := 100 - startOf (fun _ => recArchive) k
                    listobj := [] ++ (List.range k).map (fun _ => mkDirent recArchive)
                    decoded := [] ++ (List.range k).map (fun i =>
                      { off := startOf (fun _ => recArchive) i
                        remaining := 100 - startOf (fun _ => recArchive) i
                        len := recArchive.dirlen }) } :=
  ⟨⟨by decide, by decide, fun _ => rfl, fun _ => (by decide : (0 : Int) < recArchive.dirlen),
    fun _ => (by decide : recArchive.dirlen ≤ INT_MAX)⟩,
   let ⟨k, h1, h2, h3, h4, _⟩ := walk_decodes_first_k uniformBuf (fun _ => recArchive) 100 [] []
     (by decide) (by decide) (fun _ => rfl)
     (fun _ => (by decide : (0 : Int) < recArchive.dirlen))
     (fun _ => (by decide : recArchive.dirlen ≤ INT_MAX))
   ⟨k, h1, h2, h3, h4⟩⟩

/-! ## Packed records that fill the count exactly -/

theorem totalLen_nonneg (recs : List smbc_dirent) (hpos : ∀ r ∈ recs, 0 < r.dirlen) :
    0 ≤ totalLen recs := by
  induction recs with
  | nil => simp [totalLen]
  | cons r rs ih =>
    have h1 := hpos r (List.mem_cons_self r rs)
    have h2 := ih (fun x hx => hpos x (List.mem_cons_of_mem r hx))
    simp only [totalLen, List.map_cons, List.sum_cons] at h2 ⊢
    omega

/-- The walk over records that fill the count exactly and lie inside the
buffer reads each of them once, in order, and stops with the count at 0. -/
theorem walk_layout (dirbuf : DirBuf) :
    ∀ (recs : List smbc_dirent) (st : WalkState),
      Layout dirbuf st.dirp recs → (∀ r ∈ recs, 0 < r.dirlen) → st.dirlen = totalLen recs →
      0 ≤ st.dirp → st.dirp + totalLen recs ≤ sizeof_dirbuf →
      ∀ fuel, recs.length ≤ fuel →
        walk dirbuf fuel st
          = .done { dirp := st.dirp + totalLen recs
                    dirlen := 0
                    listobj := st.listobj ++ recs.map mkDirent
                    decoded := st.decoded ++ probesOf st.dirp st.dirlen recs } := by
  intro recs
  induction recs with
  | nil =>
    intro st _ _ hlen _ _ fuel _
    have h0 : st.dirlen = 0 := by simpa [totalLen] using hlen
    rw [walk_zero dirbuf st (by omega) fuel]
    cases st
    simp_all [totalLen, probesOf]
  | cons r rs ih =>
    intro st hlay hpos hlen hlo hhi fuel hf
    obtain ⟨f, rfl⟩ : ∃ f, fuel = f + 1 := ⟨fuel - 1, by simp at hf; omega⟩
    have hr := hpos r (List.mem_cons_self r rs)
    have hrs : ∀ x ∈ rs, 0 < x.dirlen := fun x hx => hpos x (List.mem_cons_of_mem r hx)
    have hnn := totalLen_nonneg rs hrs
    have hsum : totalLen (r :: rs) = r.dirlen + totalLen rs := by
      simp [totalLen]
    obtain ⟨hhead, htail⟩ := hlay
    rw [hsum] at hhi
    have hw : wrapInt (st.dirlen - r.dirlen) = st.dirlen - r.dirlen := by
      apply wrapInt_of_range
      · unfold INT_MIN; omega
      · unfold sizeof_dirbuf at hhi; unfold INT_MAX; omega
    rw [walk_succ dirbuf st (by omega) ⟨hlo, by omega⟩]
    have hstep : walkStep dirbuf st
        = { dirp := st.dirp + r.dirlen
            dirlen := st.dirlen - r.dirlen
            listobj := st.listobj ++ [mkDirent r]
            decoded := st.decoded ++ [{ off := st.dirp, remaining := st.dirlen, len := r.dirlen }] } := by
      simp [walkStep, hhead, hw]
    rw [hstep, ih _ htail hrs (by simp only; omega) (by simp only; omega)
      (by simp only; omega) f (by simp at hf; omega)]
    simp only [hsum, probesOf, List.map_cons, List.append_assoc, List.singleton_append,
      Run.done.injEq, WalkState.mk.injEq, and_true, true_and]
    omega

theorem probesOf_length (recs : List smbc_dirent) :
    ∀ off rem : Int, (probesOf off rem recs).length = recs.length := by
  induction recs with
  | nil => intro _ _; simp [probesOf]
  | cons r rs ih => intro off rem; simp [probesOf, ih]

theorem probesOf_in_bounds (recs : List smbc_dirent) :
    ∀ off rem : Int, 0 ≤ off → (∀ r ∈ recs, 0 < r.dirlen) → rem = totalLen recs →
      ∀ p ∈ probesOf off rem recs,
        0 ≤ p.off ∧ 0 < p.len ∧ p.len ≤ p.remaining ∧ p.off + p.len ≤ off + rem := by
  induction recs with
  | nil => intro _ _ _ _ _ p hp; simp [probesOf] at hp
  | cons r rs ih =>
    intro off rem hoff hpos hrem p hp
    have hr := hpos r (List.mem_cons_self r rs)
    have hrs : ∀ x ∈ rs, 0 < x.dirlen := fun x hx => hpos x (List.mem_cons_of_mem r hx)
    have hnn := totalLen_nonneg rs hrs
    have hsum : totalLen (r :: rs) = r.dirlen + totalLen rs := by
      simp [totalLen]
    simp only [probesOf, List.mem_cons] at hp
    rcases hp with rfl | hp
    · simp only
      omega
    · have := ih (off + r.dirlen) (rem - r.dirlen) (by omega) hrs (by omega) p hp
      omega

/-- C8, as the claim states it, fails: with 40 bytes filled, a record of 30
bytes at offset 0 and behind it a record that gives its length as 2000, the
walk reads the second record with 10 bytes to go and appends it. -/
theorem walk_reads_oversized_record :
    walk overshootBuf 2 { dirp := 0, dirlen := 40, listobj := [], decoded := [] }
      = .done { dirp := 2030
                dirlen := -1990
                listobj := [mkDirent recShort, mkDirent recHuge]
                decoded := [{ off := 0, remaining := 40, len := 30 },
                            { off := 30, remaining := 10, len := 2000 }] } ∧
    ¬ (∀ p ∈ [({ off := 0, remaining := 40, len := 30 } : Probe),
              { off := 30, remaining := 10, len := 2000 }],
        0 < p.len ∧ p.len ≤ p.remaining) := by
  refine ⟨by decide, ?_⟩
  intro h
  have := (h { off := 30, remaining := 10, len := 2000 } (by simp)).2
  simp at this

/-- C8, amended: the walk tests `dirlen > 0` and nothing else before it reads
the record under `dirp` (a fault when `dirp` is outside `dirbuf`). When the
buffer holds records with positive self-lengths that sum to the filled count
`n`, itself no more than `dirbuf` holds, the walk reads exactly these
records, and each of them starts at an offset `>= 0`, has a self-length that
is positive and at most the bytes still to go, and ends at or before `n`,
so inside `dirbuf`. -/
theorem walk_wellformed_in_bounds (dirbuf : DirBuf) (recs : List smbc_dirent) (n : Int)
    (l : List Dirent) (hlay : Layout dirbuf 0 recs) (hpos : ∀ r ∈ recs, 0 < r.dirlen)
    (hsum : totalLen recs = n) (hcap : n ≤ sizeof_dirbuf) :
    (∀ fuel, recs.length ≤ fuel →
      ∃ st, walk dirbuf fuel { dirp := 0, dirlen := n, listobj := l, decoded := [] } = .done st ∧
        st.listobj = l ++ recs.map mkDirent ∧
        st.decoded.length = recs.length ∧
        ∀ p ∈ st.decoded, 0 ≤ p.off ∧ 0 < p.len ∧ p.len ≤ p.remaining ∧ p.off + p.len ≤ n ∧
          p.off + p.len ≤ sizeof_dirbuf) ∧
    (∀ (b : DirBuf) (st : WalkState) (fuel : Nat), 0 < st.dirlen →
      walk b (fuel + 1) st
        = if 0 ≤ st.dirp ∧ st.dirp < sizeof_dirbuf then walk b fuel (walkStep b st)
          else .fault) := by
  refine ⟨?_, fun b st fuel h => by simp [walk, h]⟩
  intro fuel hf
  refine ⟨_, walk_layout dirbuf recs _ hlay hpos hsum.symm (le_refl 0)
    (by simp only; omega) fuel hf, rfl, ?_, ?_⟩
  · simp [probesOf_length]
  · intro p hp
    simp only [List.nil_append] at hp
    have := probesOf_in_bounds recs 0 n (le_refl 0) hpos hsum.symm p hp
    omega

theorem walk_wellformed_in_bounds_witness :
    (Layout scenarioBuf 0 [recReport, recArchive] ∧
      (∀ r ∈ [recReport, recArchive], 0 < r.dirlen) ∧
      totalLen [recReport, recArchive] = 76 ∧ (76 : Int) ≤ sizeof_dirbuf) ∧
    ∃ st, walk scenarioBuf 2 { dirp := 0, dirlen := 76, listobj := [], decoded := [] } = .done st ∧
      st.listobj = [] ++ [recReport, recArchive].map mkDirent ∧
      st.decoded.length = [recReport, recArchive].length ∧
      ∀ p ∈ st.decoded, 0 ≤ p.off ∧ 0 < p.len ∧ p.len ≤ p.remaining ∧ p.off + p.len ≤ 76 ∧
        p.off + p.len ≤ sizeof_dirbuf :=
  ⟨⟨⟨rfl, rfl, trivial⟩, by decide, by decide, by decide⟩,
   (walk_wellformed_in_bounds scenarioBuf [recReport, recArchive] 76 []
     ⟨rfl, rfl, trivial⟩ (by decide) (by decide) (by decide)).1 2 (by decide)⟩


/-! ## `Dir_getdents`: the outer loop -/

theorem getdentsLoop_end (fill : Nat → Fill) (fuel calls : Nat) (l : List Dirent)
    (h : (fill calls).ret = 0) :
    getdentsLoop fill fuel calls l = .done { result := .ok l, calls := calls + 1 } := by
  cases fuel <;> simp [getdentsLoop, h]

theorem getdentsLoop_neg (fill : Nat → Fill) (fuel calls : Nat) (l : List Dirent)
    (h : (fill calls).ret < 0) :
    getdentsLoop fill (fuel + 1) calls l
      = .done { result := .error (.SetFromErrno .RuntimeError (fill calls).errno),
                calls := calls + 1 } := by
  have h0 : (fill calls).ret ≠ 0 := by omega
  simp [getdentsLoop, h, h0]

theorem getdentsLoop_pos (fill : Nat → Fill) (fuel calls : Nat) (l : List Dirent)
    (st : WalkState) (h : 0 < (fill calls).ret)
    (hw : walk (fill calls).dirbuf fuel
      { dirp := 0, dirlen := (fill calls).ret, listobj := l, decoded := [] } = .done st) :
    getdentsLoop fill (fuel + 1) calls l = getdentsLoop fill fuel (calls + 1) st.listobj := by
  have h0 : (fill calls).ret ≠ 0 := by omega
  have h1 : ¬ (fill calls).ret < 0 := by omega
  rw [getdentsLoop]
  simp only [h0, h1, hw, if_false]

/-- Fills that hold well-formed records, then a fill of 0: the loop returns
the list it had, followed by the records of every fill, in order. -/
theorem getdentsLoop_fills (fill : Nat → Fill) :
    ∀ (recss : List (List smbc_dirent)) (calls : Nat) (listobj : List Dirent),
      (∀ i (h : i < recss.length), WellFormedFill (fill (calls + i)) recss[i]) →
      (fill (calls + recss.length)).ret = 0 →
      ∀ fuel, recss.length + (recss.map List.length).sum ≤ fuel →
        getdentsLoop fill fuel calls listobj
          = .done { result := .ok (listobj ++ recss.flatten.map mkDirent)
                    calls := calls + recss.length + 1 } := by
  intro recss
  induction recss with
  | nil =>
    intro calls listobj _ hend fuel _
    simpa using getdentsLoop_end fill fuel calls listobj (by simpa using hend)
  | cons recs rs ih =>
    intro calls listobj hfill hend fuel hf
    simp only [List.length_cons, List.map_cons, List.sum_cons] at hf
    obtain ⟨f, rfl⟩ : ∃ f, fuel = f + 1 := ⟨fuel - 1, by omega⟩
    obtain ⟨⟨hret, hcap⟩, hlay, hpos, hsum⟩ := hfill 0 (by simp)
    simp only [Nat.add_zero, List.getElem_cons_zero] at hret hcap hlay hpos hsum
    have hw := walk_layout (fill calls).dirbuf recs
      { dirp := 0, dirlen := (fill calls).ret, listobj := listobj, decoded := [] }
      hlay hpos hsum.symm (le_refl 0) (by simp only; omega) f (by omega)
    rw [getdentsLoop_pos fill f calls listobj _ hret hw]
    have htail : ∀ i (h : i < rs.length), WellFormedFill (fill (calls + 1 + i)) rs[i] := by
      intro i h
      have := hfill (i + 1) (by simp; omega)
      simpa [Nat.add_assoc, Nat.add_comm 1 i] using this
    have hend2 : (fill (calls + 1 + rs.length)).ret = 0 := by
      have : calls + (recs :: rs).length = calls + 1 + rs.length := by simp; omega
      rwa [this] at hend
    rw [ih (calls + 1) _ htail hend2 f (by omega)]
    simp only [List.flatten_cons, List.map_append, List.append_assoc, List.length_cons]
    congr 2
    omega

/-- C2: when the fill calls on an open handle give, one after the other,
buffers of well-formed records (positive self-lengths that sum to the
positive count returned, which the buffer has room for) and then 0, `Dir_getdents` returns, given enough
fuel, the list of the entries of all records, fill after fill and in buffer
order within a fill, after one fill call more than there are buffers; the
list is as long as there are records. -/
theorem Dir_getdents_returns_all (fn : smbc_getdents_fn) (w : World) (self : Dir)
    (ctxobj : Addr) (calls : Nat) (recss : List (List smbc_dirent))
    (hctx : self.context = some ctxobj)
    (hfills : ∀ i (h : i < recss.length),
      WellFormedFill (fn (w.heap ctxobj).context self.dir (calls + i)) recss[i])
    (hend : (fn (w.heap ctxobj).context self.dir (calls + recss.length)).ret = 0) :
    ∃ N, ∀ fuel, N ≤ fuel →
      Dir_getdents fn fuel w self calls
        = .done { result := .ok (recss.flatten.map mkDirent)
                  calls := calls + recss.length + 1 } ∧
      (recss.flatten.map mkDirent).length = (recss.map List.length).sum := by
  refine ⟨recss.length + (recss.map List.length).sum, fun fuel hf => ⟨?_, ?_⟩⟩
  · simp only [Dir_getdents, hctx]
    simpa using getdentsLoop_fills (fn (w.heap ctxobj).context self.dir) recss calls []
      hfills hend fuel hf
  · simp [List.length_flatten, Function.comp_def]

theorem Dir_getdents_returns_all_witness :
    (openDir.context = some 0 ∧
      (∀ i (h : i < [[recReport, recArchive]].length),
        WellFormedFill (scenarioFn (openWorld.heap 0).context openDir.dir (0 + i))
          [[recReport, recArchive]][i]) ∧
      (scenarioFn (openWorld.heap 0).context openDir.dir
        (0 + [[recReport, recArchive]].length)).ret = 0) ∧
    ∃ N, ∀ fuel, N ≤ fuel →
      Dir_getdents scenarioFn fuel openWorld openDir 0
        = .done { result := .ok [{ name := "report.txt", comment := "", smbc_type := SMBC_FILE },
                                 { name := "archive", comment := "old files",
                                   smbc_type := SMBC_DIR }]
                  calls := 2 } ∧
      ([[recReport, recArchive]].flatten.map mkDirent).length
        = ([[recReport, recArchive]].map List.length).sum :=
  have hfills : ∀ i (h : i < [[recReport, recArchive]].length),
      WellFormedFill (scenarioFn (openWorld.heap 0).context openDir.dir (0 + i))
        [[recReport, recArchive]][i] := by
    intro i h
    have hi : i = 0 := by simpa using h
    subst hi
    show WellFormedFill (scenarioFn 7 (some 5) 0) [recReport, recArchive]
    decide
  ⟨⟨rfl, hfills, rfl⟩,
   Dir_getdents_returns_all scenarioFn openWorld openDir 0 0 [[recReport, recArchive]]
     rfl hfills rfl⟩

/-- A fill that holds well-formed records is one on which the inner loop
comes to an end. -/
theorem walkHalts_of_wellFormed (f : Fill) (recs : List smbc_dirent)
    (h : WellFormedFill f recs) : WalkHalts f := by
  obtain ⟨⟨_, hcap⟩, hlay, hpos, hsum⟩ := h
  exact ⟨recs.length, _, walk_layout f.dirbuf recs
    { dirp := 0, dirlen := f.ret, listobj := [], decoded := [] }
    hlay hpos hsum.symm (le_refl 0) (by simp only; omega) recs.length (le_refl _)⟩

/-- Positive fills on which the inner loop comes to an end, then a negative
fill: the loop fails on that fill and makes no call after it. -/
theorem getdentsLoop_negative (fill : Nat → Fill) :
    ∀ (k calls : Nat) (listobj : List Dirent),
      (∀ i, i < k → 0 < (fill (calls + i)).ret ∧ WalkHalts (fill (calls + i))) →
      (fill (calls + k)).ret < 0 →
      ∃ N, ∀ fuel, N ≤ fuel →
        getdentsLoop fill fuel calls listobj
          = .done { result := .error (.SetFromErrno .RuntimeError (fill (calls + k)).errno)
                    calls := calls + k + 1 } := by
  intro k
  induction k with
  | zero =>
    intro calls listobj _ hneg
    refine ⟨1, fun fuel hf => ?_⟩
    obtain ⟨f, rfl⟩ : ∃ f, fuel = f + 1 := ⟨fuel - 1, by omega⟩
    simpa using getdentsLoop_neg fill f calls listobj (by simpa using hneg)
  | succ k ih =>
    intro calls listobj hbefore hneg
    obtain ⟨hret, m, st0, hst0⟩ := hbefore 0 (by omega)
    simp only [Nat.add_zero] at hret hst0
    obtain ⟨st, hst⟩ := walk_halts_any_list (fill calls).dirbuf m 0 (fill calls).ret
      [] listobj [] [] st0 hst0
    have hbefore2 : ∀ i, i < k →
        0 < (fill (calls + 1 + i)).ret ∧ WalkHalts (fill (calls + 1 + i)) := by
      intro i hi
      have := hbefore (i + 1) (by omega)
      rwa [show calls + (i + 1) = calls + 1 + i by omega] at this
    have hneg2 : (fill (calls + 1 + k)).ret < 0 := by
      rwa [show calls + (k + 1) = calls + 1 + k by omega] at hneg
    obtain ⟨N, hN⟩ := ih (calls + 1) st.listobj hbefore2 hneg2
    refine ⟨max m N + 1, fun fuel hf => ?_⟩
    obtain ⟨f, rfl⟩ : ∃ f, fuel = f + 1 := ⟨fuel - 1, by omega⟩
    have hm : m ≤ f := by have := le_max_left m N; omega
    have hNf : N ≤ f := by have := le_max_right m N; omega
    rw [getdentsLoop_pos fill f calls listobj st hret (walk_mono _ m _ _ hst f hm), hN f hNf]
    rw [show calls + (k + 1) = calls + 1 + k by omega]

/-- C3, as the claim states it, fails: on the stream `hangFn` the second
fill call would return a negative value and no fill call returns zero before
it, but the first fill (8 bytes) has a record of self-length 0 at the front,
so the inner loop never ends and `Dir_getdents` does not return, whatever
the fuel: it does not fail with `RuntimeError`, and the negative fill call is
never made. -/
theorem Dir_getdents_hangs_before_negative_fill :
    0 < (hangFn (openWorld.heap 0).context openDir.dir 0).ret ∧
    (hangFn (openWorld.heap 0).context openDir.dir 1).ret < 0 ∧
    ∀ fuel, Dir_getdents hangFn fuel openWorld openDir 0 = .timeout := by
  refine ⟨by decide, by decide, fun fuel => ?_⟩
  cases fuel with
  | zero => rfl
  | succ f =>
    have hw : walk (fun _ => recZero) f
        { dirp := 0, dirlen := 8, listobj := [], decoded := [] } = .timeout :=
      walk_zero_length_never_ends _ f _ (by decide) (by decide) (by decide) rfl
    simp only [Dir_getdents, openDir, getdentsLoop, hangFn]
    simp [hw]

/-- C3, amended: on a handle with a `Context`, when fill call number `k`
from now returns a negative value, the `k` calls before it returned positive
counts, and the inner loop came to an end on the buffer of each of them
(it returned, without a fault), `Dir_getdents` returns, given enough fuel, no
list but the `RuntimeError` made from the `errno` of the negative call,
however many entries the earlier fills gave, and has made no fill call after
the negative one. -/
theorem Dir_getdents_negative_fill (fn : smbc_getdents_fn) (w : World) (self : Dir)
    (ctxobj : Addr) (calls k : Nat)
    (hctx : self.context = some ctxobj)
    (hbefore : ∀ i, i < k →
      0 < (fn (w.heap ctxobj).context self.dir (calls + i)).ret ∧
      WalkHalts (fn (w.heap ctxobj).context self.dir (calls + i)))
    (hneg : (fn (w.heap ctxobj).context self.dir (calls + k)).ret < 0) :
    ∃ N, ∀ fuel, N ≤ fuel →
      Dir_getdents fn fuel w self calls
        = .done { result := .error (.SetFromErrno .RuntimeError
                    (fn (w.heap ctxobj).context self.dir (calls + k)).errno)
                  calls := calls + k + 1 } := by
  simp only [Dir_getdents, hctx]
  exact getdentsLoop_negative (fn (w.heap ctxobj).context self.dir) k calls [] hbefore hneg

theorem Dir_getdents_negative_fill_witness :
    (openDir.context = some 0 ∧
      (∀ i, i < 1 →
        0 < (failingFn (openWorld.heap 0).context openDir.dir (0 + i)).ret ∧
        WalkHalts (failingFn (openWorld.heap 0).context openDir.dir (0 + i))) ∧
      (failingFn (openWorld.heap 0).context openDir.dir (0 + 1)).ret < 0) ∧
    ∃ N, ∀ fuel, N ≤ fuel →
      Dir_getdents failingFn fuel openWorld openDir 0
        = .done { result := .error (.SetFromErrno .RuntimeError 5), calls := 2 } :=
  have hbefore : ∀ i, i < 1 →
      0 < (failingFn (openWorld.heap 0).context openDir.dir (0 + i)).ret ∧
      WalkHalts (failingFn (openWorld.heap 0).context openDir.dir (0 + i)) := by
    intro i hi
    have h0 : i = 0 := by omega
    subst h0
    exact ⟨by decide, 2, _, rfl⟩
  ⟨⟨rfl, hbefore, by decide⟩,
   Dir_getdents_negative_fill failingFn openWorld openDir 0 0 1 rfl hbefore (by decide)⟩

/-- The scenario evaluated: one fill with `report.txt` and `archive`, then
end of stream; and the same first fill followed by a failing one. -/
theorem scenario_runs :
    Dir_getdents scenarioFn 3 openWorld openDir 0
      = .done { result := .ok [{ name := "report.txt", comment := "", smbc_type := 8 },
                               { name := "archive", comment := "old files", smbc_type := 7 }]
                calls := 2 } ∧
    Dir_getdents failingFn 3 openWorld openDir 0
      = .done { result := .error (.SetFromErrno .RuntimeError 5), calls := 2 } :=
  ⟨rfl, rfl⟩

end Pysmbc
